import Mathlib

/-!
Verification of the face-search aggregation pipeline from
`src/services/face_service.py`.

The embedding is shallow: every pure computation of the service is
translated into an executable Lean definition, and the filesystem,
the DeepFace backend and the configuration are passed in as explicit
parameters (resolution functions, directory listings, per-reference
search outcomes).  Floating-point distances and confidences are
modelled by rational numbers.
-/

set_option maxHeartbeats 1000000

namespace FaceServiceModel

/-- One face search match, mirroring the `SearchMatch` dataclass. -/
structure SearchMatch where
  image_path : String
  distance : ℚ
  confidence : ℚ
  target_x : Option Int := none
  target_y : Option Int := none
  target_w : Option Int := none
  target_h : Option Int := none
deriving DecidableEq

/-- Result of a multi-reference person search, mirroring `PersonSearchResult`. -/
structure PersonSearchResult where
  person_name : String
  «matches» : List SearchMatch
  reference_count : Nat
  search_errors : List String
deriving DecidableEq

/-- Summary of the copy step, mirroring `OutputSummary`. -/
structure OutputSummary where
  copied_count : Nat
  output_path : String
  skipped_files : List String
deriving DecidableEq

/-- A direct child of a folder as seen by `Path.iterdir()`:
its filename plus the two `stat`-level predicates the code consults. -/
structure DirEntry where
  name : String
  is_file : Bool
  is_symlink : Bool
deriving DecidableEq

/-- Index of the last occurrence of a dot in a list of characters. -/
def lastDotIdx (cs : List Char) : Option Nat :=
  ((List.range cs.length).filter (fun i => cs.getD i ' ' = '.')).getLast?

/-- Embedding of Python `PurePath.suffix` on a bare filename: the extension
including the leading dot, where the last dot must be neither the first nor
the last character of the name. -/
def pathSuffix (name : String) : String :=
  match lastDotIdx name.toList with
  | none => ""
  | some i =>
    if 0 < i ∧ i + 1 < name.toList.length then (name.toList.drop i).asString else ""

/-- Embedding of Python `PurePath.stem`: the filename with `pathSuffix` removed. -/
def pathStem (name : String) : String :=
  (name.toList.take (name.toList.length - (pathSuffix name).toList.length)).asString

/-- Embedding of Python `PurePath.name` on a string path: the last
slash-separated component. -/
def pathName (p : String) : String :=
  (p.splitOn "/").getLastD ""

/-- Embedding of `str.lower()` (character-wise ASCII lowercasing, written
structurally so that it evaluates inside the kernel). -/
def lowerStr (s : String) : String :=
  (s.toList.map Char.toLower).asString

/-- The extension set built by `_get_images_from_folder`:
one `"." + fmt.lower()` entry per configured format. -/
def allowedExtensions (formats : List String) : List String :=
  formats.map (fun f => "." ++ lowerStr f)

/-- The filter predicate of `_get_images_from_folder`: regular file, not a
symbolic link, and case-insensitive extension among the allowed formats. -/
def isImageEntry (formats : List String) (e : DirEntry) : Bool :=
  e.is_file && !e.is_symlink && (allowedExtensions formats).contains (lowerStr (pathSuffix e.name))

/-- Embedding of `FaceService._get_images_from_folder`: filter the direct
children of the folder and keep the first `max_refs` of them. -/
def get_images_from_folder (entries : List DirEntry) (formats : List String)
    (max_refs : Nat) : List DirEntry :=
  (entries.filter (isImageEntry formats)).take max_refs

/-- Embedding of `FaceService._validate_folder_path`.  Paths are modelled
post-`resolve()` as component lists (`resolve` is the `Path.resolve`
oracle supplied by the environment); `Path.relative_to` succeeds exactly
when the allowed path's components form a prefix of the folder's. -/
def validate_folder_path (allowed_dirs : List String)
    (resolve : String → List String) (folder_path : String) :
    Except String (List String) :=
  let folder := resolve folder_path
  if allowed_dirs.any (fun a => (resolve a).isPrefixOf folder) then
    Except.ok folder
  else
    Except.error "Folder path not under allowed directories"

/-- Outcome of processing one reference image: reading its bytes and calling
`self.search` either yields a candidate list, raises `NoFaceDetectedError`,
or raises some other exception carrying a message. -/
inductive RefOutcome where
  | ok (ms : List SearchMatch)
  | noFace
  | err (msg : String)
deriving DecidableEq

/-- Whether a reference outcome is a successful search. -/
def RefOutcome.isOk : RefOutcome → Bool
  | .ok _ => true
  | _ => false

/-- One accumulation step of the deduplication dict in
`search_person_folder`: Python's insertion-ordered `dict` is modelled as
an association list keyed by `image_path`; a new key is appended, and an
existing key's entry is replaced in place only when the new confidence is
strictly greater. -/
def insertMatch (acc : List SearchMatch) (m : SearchMatch) : List SearchMatch :=
  match acc with
  | [] => [m]
  | a :: rest =>
    if a.image_path = m.image_path then
      (if m.confidence > a.confidence then m else a) :: rest
    else
      a :: insertMatch rest m

/-- The per-reference loop of `search_person_folder`: fold the candidate
lists of successful searches into the accumulator and append one error
string per failing reference, in loop order. -/
def runRefs (outcome : DirEntry → RefOutcome) :
    List DirEntry → List SearchMatch × List String → List SearchMatch × List String
  | [], st => st
  | r :: rest, (acc, errs) =>
    match outcome r with
    | .ok ms => runRefs outcome rest (ms.foldl insertMatch acc, errs)
    | .noFace => runRefs outcome rest (acc, errs ++ ["No face: " ++ r.name])
    | .err msg => runRefs outcome rest (acc, errs ++ [r.name ++ ": " ++ msg])

/-- The Boolean comparison realizing
`sorted(..., key=lambda x: x.confidence, reverse=True)`:
a stable merge sort under this relation is exactly a stable
descending-by-confidence sort. -/
def confGe (a b : SearchMatch) : Bool :=
  decide (b.confidence ≤ a.confidence)

/-- The final sort of `search_person_folder`. -/
def sortMatches (l : List SearchMatch) : List SearchMatch :=
  l.mergeSort confGe

/-- Embedding of `FaceService.search_person_folder`.  The environment
supplies the `Path.resolve` oracle, the directory listing for the resolved
folder, and the per-reference search outcome (as a function of the entry
and the clamped limit). -/
def search_person_folder (allowed_dirs : List String)
    (resolve : String → List String) (formats : List String)
    (entries : List String → List DirEntry)
    (readSearch : DirEntry → Nat → RefOutcome)
    (folder_path : String) (limit : Nat) (max_refs : Nat) :
    Except String PersonSearchResult :=
  match validate_folder_path allowed_dirs resolve folder_path with
  | Except.error e => Except.error e
  | Except.ok folder =>
    let person_name := (folder.getLastD "").replace "_" " "
    let climit := max 1 (min 1000 limit)
    let images := get_images_from_folder (entries folder) formats max_refs
    if images.isEmpty then
      Except.ok ⟨person_name, [], 0, ["No images found"]⟩
    else
      let st := runRefs (fun r => readSearch r climit) images ([], [])
      Except.ok ⟨person_name, sortMatches st.1, images.length, st.2⟩

/-- All candidates returned across the successful reference searches,
in processing order. -/
def okCandidates (images : List DirEntry) (outcome : DirEntry → RefOutcome) :
    List SearchMatch :=
  (images.map (fun r =>
    match outcome r with
    | .ok ms => ms
    | _ => [])).flatten

/-- The error strings produced by the per-reference loop, in order. -/
def errStrings (outcome : DirEntry → RefOutcome) (images : List DirEntry) :
    List String :=
  images.filterMap (fun r =>
    match outcome r with
    | .ok _ => none
    | .noFace => some ("No face: " ++ r.name)
    | .err msg => some (r.name ++ ": " ++ msg))

/-- The accumulated deduplication state after folding a candidate list. -/
def accOf (l : List SearchMatch) : List SearchMatch :=
  l.foldl insertMatch []

/-- One raw row of the DeepFace dataframe results consumed by
`FaceService.search`: its `img_name` and `distance` columns. -/
structure Row where
  img_name : String
  distance : ℚ
deriving DecidableEq

/-- The Boolean comparison realizing `sorted(matches, key=lambda x: x.distance)`. -/
def distLe (a b : SearchMatch) : Bool :=
  decide (a.distance ≤ b.distance)

/-- Embedding of the post-backend part of `FaceService.search`: iterate the
result dataframes row by row, keep rows within the configured threshold,
derive `confidence = max(0, 1 - distance)`, sort ascending by distance and
truncate to `limit`. -/
def search (threshold : ℚ) (results : List (List Row)) (limit : Nat) :
    List SearchMatch :=
  let ms := (results.flatten.filter (fun r => decide (r.distance ≤ threshold))).map
    (fun r => { image_path := r.img_name, distance := r.distance,
                confidence := max 0 (1 - r.distance) : SearchMatch })
  (ms.mergeSort distLe).take limit

/-- The candidate destination name tried by `_get_unique_filename` for
counter value `k`: `f"{stem}_{k}{suffix}"`. -/
def candName (stem sfx : String) (k : Nat) : String :=
  stem ++ "_" ++ Nat.repr k ++ sfx

/-- The `while dest.exists()` loop of `_get_unique_filename`, searching
counters upward from `k`.  The fuel argument only bounds the recursion;
the development proves that one more candidate than the number of occupied
names always suffices, so the loop of the source terminates and the fuel
branch is never taken. -/
def findFreeFrom (occupied : List String) (stem sfx : String) :
    Nat → Nat → Nat
  | k, 0 => k
  | k, fuel + 1 =>
    if candName stem sfx k ∈ occupied then
      findFreeFrom occupied stem sfx (k + 1) fuel
    else k

/-- Embedding of `FaceService._get_unique_filename`.  The destination
directory's current contents are modelled by the list of occupied
filenames; the function returns the chosen destination filename. -/
def get_unique_filename (occupied : List String) (filename : String) : String :=
  if filename ∈ occupied then
    let stem := pathStem filename
    let sfx := pathSuffix filename
    candName stem sfx (findFreeFrom occupied stem sfx 1 (occupied.length + 1))
  else filename

/-- Embedding of `FaceService.resolve_image_path`: an absolute identity is
used verbatim, a relative one is joined to the base directory. -/
def resolve_image_path (base : String) (p : String) : String :=
  if p.startsWith "/" then p else base ++ "/" ++ p

/-- Outcome of one `shutil.copy2` call in the environment. -/
inductive CopyOutcome where
  | success
  | failure (msg : String)
deriving DecidableEq

/-- The per-match loop of `copy_matches_to_output`, threading the copied
counter, the skip list, and the destination directory's occupied names
(a successful copy adds the chosen destination name). -/
def copyLoop (base : String) (sourceExists : String → Bool)
    (copyRes : String → String → CopyOutcome) :
    List SearchMatch → Nat × List String × List String →
    Nat × List String × List String
  | [], st => st
  | m :: rest, (copied, skipped, occ) =>
    let source := resolve_image_path base m.image_path
    if sourceExists source then
      let destName := get_unique_filename occ (pathName source)
      match copyRes source destName with
      | .success => copyLoop base sourceExists copyRes rest (copied + 1, skipped, occ ++ [destName])
      | .failure msg =>
        copyLoop base sourceExists copyRes rest
          (copied, skipped ++ ["Copy failed " ++ pathName source ++ ": " ++ msg], occ)
    else
      copyLoop base sourceExists copyRes rest
        (copied, skipped ++ ["Missing: " ++ m.image_path], occ)

/-- Embedding of `FaceService.copy_matches_to_output`.  The person folder
path is `output_root/person_name`; `occupied0` is the set of filenames
already present in it when the call starts. -/
def copy_matches_to_output (output_root : String) (base : String)
    (sourceExists : String → Bool) (copyRes : String → String → CopyOutcome)
    (occupied0 : List String) (result : PersonSearchResult) : OutputSummary :=
  let person_folder := output_root ++ "/" ++ result.person_name
  let st := copyLoop base sourceExists copyRes result.matches (0, [], occupied0)
  ⟨st.1, person_folder, st.2.1⟩

/-- Decimal digit characters decoded back to their value. -/
def decodeDigit (c : Char) : Nat :=
  c.toNat - '0'.toNat

/-- Decode a decimal digit string produced by `Nat.toDigits`. -/
def decodeDec (l : List Char) : Nat :=
  l.foldl (fun a c => a * 10 + decodeDigit c) 0

/-- Fuel-free form of `Nat.toDigits 10`. -/
def decChars (n : Nat) : List Char :=
  if _h : n < 10 then [Nat.digitChar n]
  else decChars (n / 10) ++ [Nat.digitChar (n % 10)]
decreasing_by exact Nat.div_lt_self (by omega) (by omega)

/-- Lookup in the accumulated association list by `image_path`. -/
def keyFind (k : String) (l : List SearchMatch) : Option SearchMatch :=
  l.find? (fun x => x.image_path == k)

/-- The merge of one new candidate into the best-so-far entry of its key:
keep the old entry unless the new confidence is strictly greater. -/
def combine (b : Option SearchMatch) (m : SearchMatch) : SearchMatch :=
  match b with
  | none => m
  | some b' => if m.confidence > b'.confidence then m else b'

/-- Repeated `combine` over a candidate list. -/
def bestOf (b : Option SearchMatch) (l : List SearchMatch) : Option SearchMatch :=
  l.foldl (fun acc m => some (combine acc m)) b

/-- The candidates of a list carrying a given identity, in order. -/
def sameKey (k : String) (l : List SearchMatch) : List SearchMatch :=
  l.filter (fun x => x.image_path == k)

/-- First-seen order of a list of keys. -/
def seenOrder (l : List String) : List String :=
  l.foldl (fun ks k => if k ∈ ks then ks else ks ++ [k]) []

end FaceServiceModel

namespace FaceServiceModel

theorem keyFind_nil (k : String) : keyFind k [] = none := rfl

theorem keyFind_cons (a : SearchMatch) (l : List SearchMatch) (k : String) :
    keyFind k (a :: l) = if a.image_path = k then some a else keyFind k l := by
  by_cases h : a.image_path = k
  · simp [keyFind, List.find?_cons_of_pos, h]
  · simp [keyFind, List.find?_cons_of_neg, h]

theorem keyFind_insertMatch (acc : List SearchMatch) (m : SearchMatch) (k : String) :
    keyFind k (insertMatch acc m) =
      if m.image_path = k then some (combine (keyFind k acc) m) else keyFind k acc := by
  induction acc with
  | nil =>
    by_cases h : m.image_path = k <;>
      simp [insertMatch, keyFind_cons, keyFind_nil, combine, h]
  | cons a rest ih =>
    by_cases ha : a.image_path = m.image_path
    · simp only [insertMatch, ha, if_pos]
      by_cases hk : m.image_path = k
      · have hak : a.image_path = k := ha.trans hk
        by_cases hc : m.confidence > a.confidence <;>
          simp [keyFind_cons, hk, hak, hc, combine, ha]
      · have hak : ¬ a.image_path = k := fun h => hk (ha ▸ h)
        by_cases hc : m.confidence > a.confidence <;>
          simp [keyFind_cons, hk, hak, hc]
    · simp only [insertMatch, ha, if_neg, not_false_iff]
      by_cases hak : a.image_path = k
      · have hk : ¬ m.image_path = k := fun h => ha (h.trans hak.symm).symm
        simp [keyFind_cons, hak, hk]
      · rw [keyFind_cons, if_neg hak, ih, keyFind_cons, if_neg hak]

theorem keyFind_foldl (l : List SearchMatch) (acc : List SearchMatch) (k : String) :
    keyFind k (l.foldl insertMatch acc) = bestOf (keyFind k acc) (sameKey k l) := by
  induction l generalizing acc with
  | nil => rfl
  | cons m rest ih =>
    simp only [List.foldl_cons, ih, sameKey, List.filter_cons]
    rw [keyFind_insertMatch]
    by_cases hk : m.image_path = k
    · simp [hk, bestOf]
    · simp [hk]

theorem map_path_insertMatch (acc : List SearchMatch) (m : SearchMatch) :
    (insertMatch acc m).map (fun x => x.image_path) =
      if m.image_path ∈ acc.map (fun x => x.image_path) then
        acc.map (fun x => x.image_path)
      else acc.map (fun x => x.image_path) ++ [m.image_path] := by
  induction acc with
  | nil => simp [insertMatch]
  | cons a rest ih =>
    by_cases ha : a.image_path = m.image_path
    · by_cases hc : m.confidence > a.confidence <;>
        simp [insertMatch, ha, hc]
    · have hne : ¬ m.image_path = a.image_path := fun h => ha h.symm
      simp only [insertMatch, ha, if_neg, not_false_iff, List.map_cons, List.mem_cons, hne,
        false_or]
      rw [ih]
      by_cases hmem : m.image_path ∈ rest.map (fun x => x.image_path) <;> simp [hmem]

theorem nodup_keys_insertMatch (acc : List SearchMatch) (m : SearchMatch)
    (h : (acc.map (fun x => x.image_path)).Nodup) :
    ((insertMatch acc m).map (fun x => x.image_path)).Nodup := by
  rw [map_path_insertMatch]
  by_cases hmem : m.image_path ∈ acc.map (fun x => x.image_path)
  · simpa [hmem] using h
  · rw [if_neg hmem]
    refine List.Nodup.append h (List.nodup_singleton _) ?_
    intro x hx hx'
    have : x = m.image_path := by simpa using hx'
    exact hmem (this ▸ hx)

theorem nodup_keys_foldl (l : List SearchMatch) (acc : List SearchMatch)
    (h : (acc.map (fun x => x.image_path)).Nodup) :
    ((l.foldl insertMatch acc).map (fun x => x.image_path)).Nodup := by
  induction l generalizing acc with
  | nil => exact h
  | cons m rest ih => exact ih _ (nodup_keys_insertMatch _ _ h)

theorem nodup_keys_accOf (l : List SearchMatch) :
    ((accOf l).map (fun x => x.image_path)).Nodup :=
  nodup_keys_foldl l [] (by simp)

theorem keyFind_of_mem_nodup (l : List SearchMatch)
    (h : (l.map (fun x => x.image_path)).Nodup) (m : SearchMatch) (hm : m ∈ l) :
    keyFind m.image_path l = some m := by
  induction l with
  | nil => cases hm
  | cons a rest ih =>
    rw [List.map_cons, List.nodup_cons] at h
    rcases List.mem_cons.mp hm with rfl | hm'
    · rw [keyFind_cons, if_pos rfl]
    · have ha : ¬ a.image_path = m.image_path := by
        intro heq
        exact h.1 (heq ▸ List.mem_map.mpr ⟨m, hm', rfl⟩)
      rw [keyFind_cons, if_neg ha]
      exact ih h.2 hm'

theorem bestOf_cons (b : Option SearchMatch) (m : SearchMatch) (l : List SearchMatch) :
    bestOf b (m :: l) = bestOf (some (combine b m)) l := rfl

theorem bestOf_some_spec (l : List SearchMatch) (b m : SearchMatch)
    (h : bestOf (some b) l = some m) :
    b.confidence ≤ m.confidence ∧ (∀ x ∈ l, x.confidence ≤ m.confidence) ∧
      (m = b ∨ ∃ l₁ l₂, l = l₁ ++ m :: l₂ ∧ b.confidence < m.confidence ∧
        ∀ x ∈ l₁, x.confidence < m.confidence) := by
  induction l generalizing b with
  | nil =>
    have hb : m = b := by simpa [bestOf] using h.symm
    exact ⟨hb ▸ le_refl _, by simp, Or.inl hb⟩
  | cons a rest ih =>
    rw [bestOf_cons] at h
    by_cases hc : a.confidence > b.confidence
    · have hcomb : combine (some b) a = a := by simp [combine, hc]
      rw [hcomb] at h
      obtain ⟨h1, h2, h3⟩ := ih a h
      refine ⟨le_of_lt (lt_of_lt_of_le hc h1), ?_, ?_⟩
      · intro x hx
        rcases List.mem_cons.mp hx with rfl | hx'
        · exact h1
        · exact h2 x hx'
      · rcases h3 with rfl | ⟨l₁, l₂, hsplit, hlt, hall⟩
        · exact Or.inr ⟨[], rest, rfl, hc, by simp⟩
        · refine Or.inr ⟨a :: l₁, l₂, by rw [hsplit, List.cons_append], lt_trans hc hlt, ?_⟩
          intro x hx
          rcases List.mem_cons.mp hx with rfl | hx'
          · exact hlt
          · exact hall x hx'
    · have hcomb : combine (some b) a = b := by simp [combine, hc]
      rw [hcomb] at h
      obtain ⟨h1, h2, h3⟩ := ih b h
      refine ⟨h1, ?_, ?_⟩
      · intro x hx
        rcases List.mem_cons.mp hx with rfl | hx'
        · exact le_trans (not_lt.mp hc) h1
        · exact h2 x hx'
      · rcases h3 with rfl | ⟨l₁, l₂, hsplit, hlt, hall⟩
        · exact Or.inl rfl
        · refine Or.inr ⟨a :: l₁, l₂, by rw [hsplit, List.cons_append], hlt, ?_⟩
          intro x hx
          rcases List.mem_cons.mp hx with rfl | hx'
          · exact lt_of_le_of_lt (not_lt.mp hc) hlt
          · exact hall x hx'

theorem bestOf_none_spec (l : List SearchMatch) (m : SearchMatch)
    (h : bestOf none l = some m) :
    m ∈ l ∧ (∀ x ∈ l, x.confidence ≤ m.confidence) ∧
      ∃ l₁ l₂, l = l₁ ++ m :: l₂ ∧ ∀ x ∈ l₁, x.confidence < m.confidence := by
  cases l with
  | nil => simp [bestOf] at h
  | cons a rest =>
    rw [bestOf_cons] at h
    have hcomb : combine none a = a := rfl
    rw [hcomb] at h
    obtain ⟨h1, h2, h3⟩ := bestOf_some_spec rest a m h
    rcases h3 with rfl | ⟨l₁, l₂, hsplit, hlt, hall⟩
    · refine ⟨List.mem_cons_self _ _, ?_, [], rest, rfl, by simp⟩
      intro x hx
      rcases List.mem_cons.mp hx with rfl | hx'
      · exact le_refl _
      · exact h2 x hx'
    · refine ⟨?_, ?_, a :: l₁, l₂, by rw [hsplit, List.cons_append], ?_⟩
      · exact List.mem_cons_of_mem _ (hsplit ▸ List.mem_append_right _ (List.mem_cons_self _ _))
      · intro x hx
        rcases List.mem_cons.mp hx with rfl | hx'
        · exact h1
        · exact h2 x hx'
      · intro x hx
        rcases List.mem_cons.mp hx with rfl | hx'
        · exact hlt
        · exact hall x hx'

theorem bestOf_eq_none (l : List SearchMatch) :
    bestOf none l = none ↔ l = [] := by
  cases l with
  | nil => simp [bestOf]
  | cons a rest =>
    simp only [bestOf_cons]
    constructor
    · intro h
      exfalso
      have : ∀ (b : SearchMatch) (l' : List SearchMatch), bestOf (some b) l' ≠ none := by
        intro b l'
        induction l' generalizing b with
        | nil => simp [bestOf]
        | cons x xs ih => rw [bestOf_cons]; exact ih _
      exact this _ _ h
    · intro h; cases h

theorem runRefs_fst (outcome : DirEntry → RefOutcome) (l : List DirEntry)
    (acc : List SearchMatch) (errs : List String) :
    (runRefs outcome l (acc, errs)).1 = (okCandidates l outcome).foldl insertMatch acc := by
  induction l generalizing acc errs with
  | nil => simp [runRefs, okCandidates]
  | cons r rest ih =>
    cases h : outcome r with
    | ok ms => simp [runRefs, h, okCandidates, ih, List.foldl_append]
    | noFace => simp [runRefs, h, okCandidates, ih]
    | err msg => simp [runRefs, h, okCandidates, ih]

theorem runRefs_snd (outcome : DirEntry → RefOutcome) (l : List DirEntry)
    (acc : List SearchMatch) (errs : List String) :
    (runRefs outcome l (acc, errs)).2 = errs ++ errStrings outcome l := by
  induction l generalizing acc errs with
  | nil => simp [runRefs, errStrings]
  | cons r rest ih =>
    cases h : outcome r with
    | ok ms => simp [runRefs, h, errStrings, ih]
    | noFace => simp [runRefs, h, errStrings, ih]
    | err msg => simp [runRefs, h, errStrings, ih]

theorem okCandidates_filter_isOk (l : List DirEntry) (outcome : DirEntry → RefOutcome) :
    okCandidates (l.filter (fun r => (outcome r).isOk)) outcome = okCandidates l outcome := by
  induction l with
  | nil => rfl
  | cons r rest ih =>
    cases h : outcome r with
    | ok ms => simp [okCandidates, List.filter_cons, h, RefOutcome.isOk] at ih ⊢; exact ih
    | noFace => simp [okCandidates, List.filter_cons, h, RefOutcome.isOk] at ih ⊢; exact ih
    | err msg => simp [okCandidates, List.filter_cons, h, RefOutcome.isOk] at ih ⊢; exact ih

theorem map_path_foldl_seen (l : List SearchMatch) (acc : List SearchMatch) :
    (l.foldl insertMatch acc).map (fun x => x.image_path) =
      (l.map (fun x => x.image_path)).foldl
        (fun ks k => if k ∈ ks then ks else ks ++ [k])
        (acc.map (fun x => x.image_path)) := by
  induction l generalizing acc with
  | nil => rfl
  | cons m rest ih =>
    simp only [List.foldl_cons, List.map_cons, ih, map_path_insertMatch]

theorem map_path_accOf_seenOrder (l : List SearchMatch) :
    (accOf l).map (fun x => x.image_path) = seenOrder (l.map (fun x => x.image_path)) := by
  simpa using map_path_foldl_seen l []

/-- The full candidate multiset a `search_person_folder` run feeds into the
deduplication dict: everything returned by the successful reference
searches, with the limit clamped exactly as the code clamps it. -/
def spfCandidates (formats : List String) (entries : List String → List DirEntry)
    (readSearch : DirEntry → Nat → RefOutcome) (limit max_refs : Nat)
    (dir : List String) : List SearchMatch :=
  okCandidates (get_images_from_folder (entries dir) formats max_refs)
    (fun r => readSearch r (max 1 (min 1000 limit)))

theorem spf_eq_of_validate_ok (allowed_dirs : List String)
    (resolve : String → List String) (formats : List String)
    (entries : List String → List DirEntry)
    (readSearch : DirEntry → Nat → RefOutcome)
    (folder_path : String) (limit max_refs : Nat) (dir : List String)
    (hv : validate_folder_path allowed_dirs resolve folder_path = Except.ok dir) :
    search_person_folder allowed_dirs resolve formats entries readSearch
        folder_path limit max_refs =
      (if (get_images_from_folder (entries dir) formats max_refs).isEmpty then
        Except.ok ⟨(dir.getLastD "").replace "_" " ", [], 0, ["No images found"]⟩
      else
        Except.ok ⟨(dir.getLastD "").replace "_" " ",
          sortMatches (accOf (spfCandidates formats entries readSearch limit max_refs dir)),
          (get_images_from_folder (entries dir) formats max_refs).length,
          errStrings (fun r => readSearch r (max 1 (min 1000 limit)))
            (get_images_from_folder (entries dir) formats max_refs)⟩) := by
  rw [search_person_folder, hv]
  by_cases h : (get_images_from_folder (entries dir) formats max_refs).isEmpty
  · simp only [h, if_pos]
  · simp only [h, if_neg, Bool.false_eq_true, not_false_iff, runRefs_fst, runRefs_snd,
      List.nil_append, spfCandidates, accOf]

theorem sortMatches_perm (l : List SearchMatch) : List.Perm (sortMatches l) l :=
  List.mergeSort_perm l confGe

theorem mem_sortMatches (m : SearchMatch) (l : List SearchMatch) :
    m ∈ sortMatches l ↔ m ∈ l :=
  List.mem_mergeSort

theorem confGe_trans (a b c : SearchMatch) : confGe a b → confGe b c → confGe a c := by
  simp only [confGe, decide_eq_true_eq]
  exact fun h1 h2 => le_trans h2 h1

theorem confGe_total (a b : SearchMatch) : confGe a b || confGe b a := by
  simp only [confGe, Bool.or_eq_true, decide_eq_true_eq]
  exact le_total b.confidence a.confidence

/-- C1: in every `search_person_folder` run, the returned matches contain at
most one entry per distinct `image_path`; every entry is one of the raw
candidates of the run; its confidence is the maximum over all candidates of
its identity; and it is the first candidate of its identity attaining that
maximum (a held entry is replaced only by a strictly greater confidence);
conversely every candidate identity is represented. -/
theorem spf_dedup_best_per_identity (allowed_dirs : List String)
    (resolve : String → List String) (formats : List String)
    (entries : List String → List DirEntry)
    (readSearch : DirEntry → Nat → RefOutcome)
    (folder_path : String) (limit max_refs : Nat) (dir : List String)
    (res : PersonSearchResult)
    (hv : validate_folder_path allowed_dirs resolve folder_path = Except.ok dir)
    (hr : search_person_folder allowed_dirs resolve formats entries readSearch
        folder_path limit max_refs = Except.ok res) :
    res.matches.Pairwise (fun a b => a.image_path ≠ b.image_path) ∧
    (∀ m ∈ res.matches,
      m ∈ spfCandidates formats entries readSearch limit max_refs dir ∧
      (∀ c ∈ spfCandidates formats entries readSearch limit max_refs dir,
        c.image_path = m.image_path → c.confidence ≤ m.confidence) ∧
      (∃ l₁ l₂, sameKey m.image_path
          (spfCandidates formats entries readSearch limit max_refs dir) = l₁ ++ m :: l₂ ∧
        ∀ x ∈ l₁, x.confidence < m.confidence)) ∧
    (∀ c ∈ spfCandidates formats entries readSearch limit max_refs dir,
      ∃ m ∈ res.matches, m.image_path = c.image_path) := by
  rw [spf_eq_of_validate_ok allowed_dirs resolve formats entries readSearch
    folder_path limit max_refs dir hv] at hr
  by_cases h : (get_images_from_folder (entries dir) formats max_refs).isEmpty
  · rw [if_pos h] at hr
    have hres : res = ⟨(dir.getLastD "").replace "_" " ", [], 0, ["No images found"]⟩ :=
      (Except.ok.injEq _ _).mp hr.symm
    have himg : get_images_from_folder (entries dir) formats max_refs = [] :=
      List.isEmpty_iff.mp h
    have hcand : spfCandidates formats entries readSearch limit max_refs dir = [] := by
      rw [spfCandidates, himg]; rfl
    subst hres
    simp [hcand]
  · rw [if_neg h] at hr
    have hres : res = ⟨(dir.getLastD "").replace "_" " ",
        sortMatches (accOf (spfCandidates formats entries readSearch limit max_refs dir)),
        (get_images_from_folder (entries dir) formats max_refs).length,
        errStrings (fun r => readSearch r (max 1 (min 1000 limit)))
          (get_images_from_folder (entries dir) formats max_refs)⟩ :=
      (Except.ok.injEq _ _).mp hr.symm
    subst hres
    set cands := spfCandidates formats entries readSearch limit max_refs dir with hc
    have hnodup := nodup_keys_accOf cands
    refine ⟨?_, ?_, ?_⟩
    · have hpw : (accOf cands).Pairwise (fun a b => a.image_path ≠ b.image_path) :=
        List.pairwise_map.mp hnodup
      exact (List.Perm.pairwise_iff (fun h => Ne.symm h)
        (sortMatches_perm (accOf cands))).mpr hpw
    · intro m hm
      have hm' : m ∈ accOf cands := (mem_sortMatches m _).mp hm
      have hfind : keyFind m.image_path (accOf cands) = some m :=
        keyFind_of_mem_nodup _ hnodup m hm'
      rw [accOf, keyFind_foldl, keyFind_nil] at hfind
      obtain ⟨hmem, hmax, l₁, l₂, hsplit, hall⟩ := bestOf_none_spec _ _ hfind
      refine ⟨?_, ?_, ⟨l₁, l₂, hsplit, hall⟩⟩
      · exact List.mem_of_mem_filter hmem
      · intro c hcm hpath
        have : c ∈ sameKey m.image_path cands :=
          List.mem_filter.mpr ⟨hcm, by simp [hpath]⟩
        exact hmax c this
    · intro c hcm
      have hmemk : c ∈ sameKey c.image_path cands :=
        List.mem_filter.mpr ⟨hcm, by simp⟩
      have hne : sameKey c.image_path cands ≠ [] :=
        fun hnil => by rw [hnil] at hmemk; cases hmemk
      have hbo : bestOf none (sameKey c.image_path cands) ≠ none :=
        fun hno => hne ((bestOf_eq_none _).mp hno)
      obtain ⟨m, hm⟩ := Option.ne_none_iff_exists'.mp hbo
      have hfind : keyFind c.image_path (accOf cands) = some m := by
        rw [accOf, keyFind_foldl, keyFind_nil]; exact hm
      refine ⟨m, ?_, ?_⟩
      · exact (mem_sortMatches m _).mpr (List.mem_of_find?_eq_some hfind)
      · have := List.find?_some hfind
        simpa using this

/-- C2: in every `search_person_folder` run the matches are sorted by
confidence in non-increasing order, the sort is stable (each
equal-confidence class appears exactly in the accumulated first-seen
order), and the accumulated entries list identities in first-seen order
of the candidate stream. -/
theorem spf_sorted_desc_stable (allowed_dirs : List String)
    (resolve : String → List String) (formats : List String)
    (entries : List String → List DirEntry)
    (readSearch : DirEntry → Nat → RefOutcome)
    (folder_path : String) (limit max_refs : Nat) (dir : List String)
    (res : PersonSearchResult)
    (hv : validate_folder_path allowed_dirs resolve folder_path = Except.ok dir)
    (hr : search_person_folder allowed_dirs resolve formats entries readSearch
        folder_path limit max_refs = Except.ok res) :
    res.matches.Pairwise (fun a b => b.confidence ≤ a.confidence) ∧
    (∀ q : ℚ, res.matches.filter (fun m => decide (m.confidence = q)) =
      (accOf (spfCandidates formats entries readSearch limit max_refs dir)).filter
        (fun m => decide (m.confidence = q))) ∧
    (accOf (spfCandidates formats entries readSearch limit max_refs dir)).map
        (fun x => x.image_path) =
      seenOrder ((spfCandidates formats entries readSearch limit max_refs dir).map
        (fun x => x.image_path)) := by
  rw [spf_eq_of_validate_ok allowed_dirs resolve formats entries readSearch
    folder_path limit max_refs dir hv] at hr
  refine ⟨?_, ?_, map_path_accOf_seenOrder _⟩
  all_goals
    by_cases h : (get_images_from_folder (entries dir) formats max_refs).isEmpty
  · rw [if_pos h] at hr
    have hres : res = ⟨(dir.getLastD "").replace "_" " ", [], 0, ["No images found"]⟩ :=
      (Except.ok.injEq _ _).mp hr.symm
    subst hres
    simp
  · rw [if_neg h] at hr
    have hres : res = ⟨(dir.getLastD "").replace "_" " ",
        sortMatches (accOf (spfCandidates formats entries readSearch limit max_refs dir)),
        (get_images_from_folder (entries dir) formats max_refs).length,
        errStrings (fun r => readSearch r (max 1 (min 1000 limit)))
          (get_images_from_folder (entries dir) formats max_refs)⟩ :=
      (Except.ok.injEq _ _).mp hr.symm
    subst hres
    have hs := @List.sorted_mergeSort _ confGe confGe_trans confGe_total
      (accOf (spfCandidates formats entries readSearch limit max_refs dir))
    exact hs.imp (fun hab => by simpa [confGe] using hab)
  · rw [if_pos h] at hr
    have hres : res = ⟨(dir.getLastD "").replace "_" " ", [], 0, ["No images found"]⟩ :=
      (Except.ok.injEq _ _).mp hr.symm
    have himg : get_images_from_folder (entries dir) formats max_refs = [] :=
      List.isEmpty_iff.mp h
    have hcand : spfCandidates formats entries readSearch limit max_refs dir = [] := by
      rw [spfCandidates, himg]; rfl
    subst hres
    simp [hcand, accOf]
  · rw [if_neg h] at hr
    have hres : res = ⟨(dir.getLastD "").replace "_" " ",
        sortMatches (accOf (spfCandidates formats entries readSearch limit max_refs dir)),
        (get_images_from_folder (entries dir) formats max_refs).length,
        errStrings (fun r => readSearch r (max 1 (min 1000 limit)))
          (get_images_from_folder (entries dir) formats max_refs)⟩ :=
      (Except.ok.injEq _ _).mp hr.symm
    subst hres
    intro q
    set acc := accOf (spfCandidates formats entries readSearch limit max_refs dir) with hacc
    set p := (fun m : SearchMatch => decide (m.confidence = q)) with hp
    have hperm : List.Perm ((sortMatches acc).filter p) (acc.filter p) :=
      (sortMatches_perm acc).filter p
    have hallq : ∀ m ∈ acc.filter p, m.confidence = q := by
      intro m hm
      have := (List.mem_filter.mp hm).2
      simpa [hp] using this
    have hpw : (acc.filter p).Pairwise (fun a b => confGe a b = true) := by
      apply List.pairwise_of_forall_mem_list
      intro a ha b hb
      simp [confGe, hallq a ha, hallq b hb]
    have hsub : List.Sublist (acc.filter p) (sortMatches acc) :=
      List.sublist_mergeSort confGe_trans confGe_total hpw (List.filter_sublist acc)
    have hsub2 : List.Sublist ((acc.filter p).filter p) ((sortMatches acc).filter p) :=
      hsub.filter p
    have hself : (acc.filter p).filter p = acc.filter p :=
      List.filter_eq_self.mpr (fun a ha => (List.mem_filter.mp ha).2)
    rw [hself] at hsub2
    have hlen : (acc.filter p).length = ((sortMatches acc).filter p).length :=
      (hperm.length_eq).symm
    exact (hsub2.eq_of_length hlen).symm

/-- C3: a folder that passes path validation but yields zero qualifying
reference images produces, without error, the sentinel result with empty
matches, reference count zero and exactly the one error string
`"No images found"`. -/
theorem spf_empty_folder_sentinel (allowed_dirs : List String)
    (resolve : String → List String) (formats : List String)
    (entries : List String → List DirEntry)
    (readSearch : DirEntry → Nat → RefOutcome)
    (folder_path : String) (limit max_refs : Nat) (dir : List String)
    (hv : validate_folder_path allowed_dirs resolve folder_path = Except.ok dir)
    (he : get_images_from_folder (entries dir) formats max_refs = []) :
    search_person_folder allowed_dirs resolve formats entries readSearch
        folder_path limit max_refs =
      Except.ok ⟨(dir.getLastD "").replace "_" " ", [], 0, ["No images found"]⟩ := by
  rw [spf_eq_of_validate_ok allowed_dirs resolve formats entries readSearch
    folder_path limit max_refs dir hv, he]
  rfl

/-- C4: per-reference failures never abort a `search_person_folder` run:
the error list is exactly one entry per failing reference in order, a
`NoFaceDetectedError` contributing `"No face: <filename>"` and any other
exception `"<filename>: <message>"`; the matches are exactly those of the
run restricted to the non-failing references; and for every failure
pattern of the backend the function still returns a result instead of
propagating an exception. -/
theorem spf_per_reference_failures (allowed_dirs : List String)
    (resolve : String → List String) (formats : List String)
    (entries : List String → List DirEntry)
    (readSearch : DirEntry → Nat → RefOutcome)
    (folder_path : String) (limit max_refs : Nat) (dir : List String)
    (res : PersonSearchResult)
    (hv : validate_folder_path allowed_dirs resolve folder_path = Except.ok dir)
    (hr : search_person_folder allowed_dirs resolve formats entries readSearch
        folder_path limit max_refs = Except.ok res)
    (hne : get_images_from_folder (entries dir) formats max_refs ≠ []) :
    res.search_errors = (get_images_from_folder (entries dir) formats max_refs).filterMap
      (fun r =>
        match readSearch r (max 1 (min 1000 limit)) with
        | .ok _ => none
        | .noFace => some ("No face: " ++ r.name)
        | .err msg => some (r.name ++ ": " ++ msg)) ∧
    res.matches = sortMatches (accOf (okCandidates
      ((get_images_from_folder (entries dir) formats max_refs).filter
        (fun r => (readSearch r (max 1 (min 1000 limit))).isOk))
      (fun r => readSearch r (max 1 (min 1000 limit))))) ∧
    (∀ readSearch' : DirEntry → Nat → RefOutcome, ∃ res',
      search_person_folder allowed_dirs resolve formats entries readSearch'
        folder_path limit max_refs = Except.ok res') := by
  have hokc := okCandidates_filter_isOk
    (get_images_from_folder (entries dir) formats max_refs)
    (fun r => readSearch r (max 1 (min 1000 limit)))
  rw [spf_eq_of_validate_ok allowed_dirs resolve formats entries readSearch
    folder_path limit max_refs dir hv] at hr
  have h : ¬ (get_images_from_folder (entries dir) formats max_refs).isEmpty := by
    simpa [List.isEmpty_iff] using hne
  rw [if_neg h] at hr
  have hres : res = ⟨(dir.getLastD "").replace "_" " ",
      sortMatches (accOf (spfCandidates formats entries readSearch limit max_refs dir)),
      (get_images_from_folder (entries dir) formats max_refs).length,
      errStrings (fun r => readSearch r (max 1 (min 1000 limit)))
        (get_images_from_folder (entries dir) formats max_refs)⟩ :=
    (Except.ok.injEq _ _).mp hr.symm
  subst hres
  refine ⟨rfl, ?_, ?_⟩
  · simp only [spfCandidates, hokc]
  · intro readSearch'
    rw [spf_eq_of_validate_ok allowed_dirs resolve formats entries readSearch'
      folder_path limit max_refs dir hv]
    by_cases h' : (get_images_from_folder (entries dir) formats max_refs).isEmpty
    · rw [if_pos h']; exact ⟨_, rfl⟩
    · rw [if_neg h']; exact ⟨_, rfl⟩

/-- C5: for folders with at least one qualifying reference image, the
reference count of the result equals the number of images returned by the
collection step, independent of per-reference errors or empty candidate
lists. -/
theorem spf_reference_count (allowed_dirs : List String)
    (resolve : String → List String) (formats : List String)
    (entries : List String → List DirEntry)
    (readSearch : DirEntry → Nat → RefOutcome)
    (folder_path : String) (limit max_refs : Nat) (dir : List String)
    (res : PersonSearchResult)
    (hv : validate_folder_path allowed_dirs resolve folder_path = Except.ok dir)
    (hr : search_person_folder allowed_dirs resolve formats entries readSearch
        folder_path limit max_refs = Except.ok res)
    (hne : get_images_from_folder (entries dir) formats max_refs ≠ []) :
    res.reference_count = (get_images_from_folder (entries dir) formats max_refs).length := by
  rw [spf_eq_of_validate_ok allowed_dirs resolve formats entries readSearch
    folder_path limit max_refs dir hv] at hr
  have h : ¬ (get_images_from_folder (entries dir) formats max_refs).isEmpty := by
    simpa [List.isEmpty_iff] using hne
  rw [if_neg h] at hr
  have hres : res = ⟨(dir.getLastD "").replace "_" " ",
      sortMatches (accOf (spfCandidates formats entries readSearch limit max_refs dir)),
      (get_images_from_folder (entries dir) formats max_refs).length,
      errStrings (fun r => readSearch r (max 1 (min 1000 limit)))
        (get_images_from_folder (entries dir) formats max_refs)⟩ :=
    (Except.ok.injEq _ _).mp hr.symm
  subst hres
  rfl

theorem isPrefixOf_iff_exists (l₁ l₂ : List String) :
    l₁.isPrefixOf l₂ = true ↔ ∃ t, l₁ ++ t = l₂ := by
  induction l₁ generalizing l₂ with
  | nil => simp [List.isPrefixOf]
  | cons a as ih =>
    cases l₂ with
    | nil =>
      simp only [List.isPrefixOf, List.cons_append]
      constructor
      · intro h; cases h
      · rintro ⟨t, ht⟩; cases ht
    | cons b bs =>
      simp only [List.isPrefixOf, Bool.and_eq_true, beq_iff_eq, ih, List.cons_append]
      constructor
      · rintro ⟨rfl, t, rfl⟩; exact ⟨t, rfl⟩
      · rintro ⟨t, ht⟩
        injection ht with h1 h2
        exact ⟨h1, t, h2⟩

/-- C6: path validation fails exactly when the resolved folder is neither
equal to nor nested under any resolved allowed directory (component-list
prefix on resolved paths); and on rejection `search_person_folder`
propagates that error before any enumeration: the outcome is the same
error for every directory listing and every search behaviour of the
environment. -/
theorem validate_folder_path_guards (allowed_dirs : List String)
    (resolve : String → List String) (folder_path : String) :
    ((∃ e, validate_folder_path allowed_dirs resolve folder_path = Except.error e) ↔
      ∀ a ∈ allowed_dirs, ¬ ∃ t, resolve a ++ t = resolve folder_path) ∧
    (∀ e, validate_folder_path allowed_dirs resolve folder_path = Except.error e →
      ∀ formats entries readSearch limit max_refs,
        search_person_folder allowed_dirs resolve formats entries readSearch
          folder_path limit max_refs = Except.error e ∧
        ∀ entries' readSearch',
          search_person_folder allowed_dirs resolve formats entries' readSearch'
            folder_path limit max_refs =
          search_person_folder allowed_dirs resolve formats entries readSearch
            folder_path limit max_refs) := by
  constructor
  · rw [validate_folder_path]
    by_cases h : allowed_dirs.any (fun a => (resolve a).isPrefixOf (resolve folder_path))
    · rw [if_pos h]
      simp only [reduceCtorEq, exists_false, false_iff]
      intro hall
      obtain ⟨a, ha, hpre⟩ := List.any_eq_true.mp h
      exact hall a ha ((isPrefixOf_iff_exists _ _).mp hpre)
    · rw [if_neg h]
      simp only [Except.error.injEq, exists_eq', true_iff]
      intro a ha hex
      exact h (List.any_eq_true.mpr ⟨a, ha, (isPrefixOf_iff_exists _ _).mpr hex⟩)
  · intro e he formats entries readSearch limit max_refs
    constructor
    · rw [search_person_folder, he]
    · intro entries' readSearch'
      rw [search_person_folder, he, search_person_folder, he]

/-- C7: reference collection returns a subsequence of the folder's direct
children; an entry appears only if it is a regular file, not a symlink,
with case-insensitively allowed extension; the output is the length-capped
front of the qualifying entries in enumeration order; and an empty result
is an ordinary value, not an error. -/
theorem get_images_from_folder_spec (entries : List DirEntry)
    (formats : List String) (max_refs : Nat) :
    List.Sublist (get_images_from_folder entries formats max_refs) entries ∧
    (∀ e ∈ get_images_from_folder entries formats max_refs,
      e.is_file = true ∧ e.is_symlink = false ∧
      lowerStr (pathSuffix e.name) ∈ formats.map (fun f => "." ++ lowerStr f)) ∧
    (get_images_from_folder entries formats max_refs).length =
      min max_refs (entries.filter (isImageEntry formats)).length ∧
    (∃ t, get_images_from_folder entries formats max_refs ++ t =
      entries.filter (isImageEntry formats)) := by
  refine ⟨?_, ?_, ?_, ?_⟩
  · exact (List.take_sublist _ _).trans (List.filter_sublist _)
  · intro e he
    have hef : e ∈ entries.filter (isImageEntry formats) :=
      List.mem_of_mem_take he
    have hq : isImageEntry formats e = true := List.of_mem_filter hef
    rw [isImageEntry, Bool.and_eq_true, Bool.and_eq_true] at hq
    obtain ⟨⟨h1, h2⟩, h3⟩ := hq
    refine ⟨h1, by simpa using h2, ?_⟩
    have := List.mem_of_elem_eq_true h3
    simpa [allowedExtensions] using this
  · exact List.length_take _ _
  · exact ⟨(entries.filter (isImageEntry formats)).drop max_refs,
      List.take_append_drop _ _⟩

theorem distLe_trans (a b c : SearchMatch) : distLe a b → distLe b c → distLe a c := by
  simp only [distLe, decide_eq_true_eq]
  exact le_trans

theorem distLe_total (a b : SearchMatch) : distLe a b || distLe b a := by
  simp only [distLe, Bool.or_eq_true, decide_eq_true_eq]
  exact le_total a.distance b.distance

/-- C8: every match returned by a normally-returning `search` carries
`confidence = max(0, 1 - distance)` and a distance within the configured
threshold; the returned list is sorted by non-decreasing distance and has
at most `limit` elements. -/
theorem search_postconditions (threshold : ℚ) (results : List (List Row)) (limit : Nat) :
    (∀ m ∈ search threshold results limit,
      m.confidence = max 0 (1 - m.distance) ∧ m.distance ≤ threshold) ∧
    (search threshold results limit).Pairwise (fun a b => a.distance ≤ b.distance) ∧
    (search threshold results limit).length ≤ limit := by
  refine ⟨?_, ?_, ?_⟩
  · intro m hm
    have hms : m ∈ (results.flatten.filter (fun r => decide (r.distance ≤ threshold))).map
        (fun r => { image_path := r.img_name, distance := r.distance,
                    confidence := max 0 (1 - r.distance) : SearchMatch }) :=
      List.mem_mergeSort.mp (List.mem_of_mem_take hm)
    obtain ⟨r, hr, rfl⟩ := List.mem_map.mp hms
    have hthr : r.distance ≤ threshold := by
      have := List.of_mem_filter hr
      simpa using this
    exact ⟨rfl, hthr⟩
  · have hs := @List.sorted_mergeSort _ distLe distLe_trans distLe_total
      ((results.flatten.filter (fun r => decide (r.distance ≤ threshold))).map
        (fun r => { image_path := r.img_name, distance := r.distance,
                    confidence := max 0 (1 - r.distance) : SearchMatch }))
    have hp := List.Pairwise.sublist (List.take_sublist limit _) hs
    exact hp.imp (fun hab => by simpa [distLe] using hab)
  · exact List.length_take_le _ _

theorem decodeDigit_digitChar (d : Nat) (h : d < 10) :
    decodeDigit (Nat.digitChar d) = d := by
  interval_cases d <;> rfl

theorem toDigitsCore_eq_decChars :
    ∀ (fuel n : Nat) (ds : List Char), n < fuel →
      Nat.toDigitsCore 10 fuel n ds = decChars n ++ ds := by
  intro fuel
  induction fuel with
  | zero => intro n ds h; omega
  | succ f ih =>
    intro n ds h
    by_cases h10 : n / 10 = 0
    · have hn : n < 10 := by omega
      have hmod : n % 10 = n := by omega
      simp only [Nat.toDigitsCore, h10, if_pos]
      rw [decChars]
      simp [hn, hmod]
    · have hdiv : n / 10 < f := by omega
      simp only [Nat.toDigitsCore, h10, if_neg, not_false_iff]
      rw [ih (n / 10) _ hdiv]
      have hn : ¬ n < 10 := by omega
      conv_rhs => rw [decChars]
      simp [hn, List.append_assoc]

theorem decodeDec_decChars (n : Nat) : decodeDec (decChars n) = n := by
  induction n using Nat.strong_induction_on with
  | _ n ih =>
    by_cases h : n < 10
    · rw [decChars]
      simp only [h, dif_pos, decodeDec, List.foldl_cons, List.foldl_nil, Nat.zero_mul,
        Nat.zero_add]
      exact decodeDigit_digitChar n h
    · rw [decChars]
      simp only [h, dif_neg, not_false_iff]
      have hdiv : n / 10 < n := Nat.div_lt_self (by omega) (by omega)
      have hmod : n % 10 < 10 := Nat.mod_lt _ (by omega)
      rw [decodeDec, List.foldl_append]
      have : List.foldl (fun a c => a * 10 + decodeDigit c) 0 (decChars (n / 10)) = n / 10 :=
        ih (n / 10) hdiv
      rw [this]
      simp only [List.foldl_cons, List.foldl_nil]
      rw [decodeDigit_digitChar _ hmod]
      omega

theorem natRepr_injective : Function.Injective Nat.repr := by
  intro m n h
  have hm : Nat.repr m = (decChars m).asString := by
    rw [Nat.repr, Nat.toDigits, toDigitsCore_eq_decChars (m + 1) m [] (by omega),
      List.append_nil]
  have hn : Nat.repr n = (decChars n).asString := by
    rw [Nat.repr, Nat.toDigits, toDigitsCore_eq_decChars (n + 1) n [] (by omega),
      List.append_nil]
  rw [hm, hn] at h
  have hdata : decChars m = decChars n := by
    have := congrArg String.data h
    simpa [List.asString] using this
  have := congrArg decodeDec hdata
  rwa [decodeDec_decChars, decodeDec_decChars] at this

theorem candName_injective (stem sfx : String) :
    Function.Injective (candName stem sfx) := by
  intro j k h
  apply natRepr_injective
  apply String.ext
  have hd := congrArg String.data h
  simp only [candName, String.data_append] at hd
  have h1 := List.append_cancel_right hd
  exact List.append_cancel_left h1

theorem exists_free_candName (occupied : List String) (stem sfx : String) :
    ∃ k, 1 ≤ k ∧ k ≤ occupied.length + 1 ∧ candName stem sfx k ∉ occupied := by
  by_contra hno
  push_neg at hno
  have hsub : (List.range' 1 (occupied.length + 1)).map (candName stem sfx) ⊆ occupied := by
    intro x hx
    obtain ⟨k, hk, rfl⟩ := List.mem_map.mp hx
    obtain ⟨i, hi, rfl⟩ := List.mem_range'.mp hk
    exact hno _ (by omega) (by omega)
  have hnodup : ((List.range' 1 (occupied.length + 1)).map (candName stem sfx)).Nodup :=
    (List.nodup_range' _ _).map (candName_injective stem sfx)
  have hlen := (List.subperm_of_subset hnodup hsub).length_le
  simp only [List.length_map, List.length_range'] at hlen
  omega

theorem findFreeFrom_spec (occupied : List String) (stem sfx : String) :
    ∀ (fuel start : Nat),
      (∃ j, start ≤ j ∧ j < start + fuel ∧ candName stem sfx j ∉ occupied) →
      candName stem sfx (findFreeFrom occupied stem sfx start fuel) ∉ occupied ∧
      start ≤ findFreeFrom occupied stem sfx start fuel ∧
      (∀ j, start ≤ j → j < findFreeFrom occupied stem sfx start fuel →
        candName stem sfx j ∈ occupied) := by
  intro fuel
  induction fuel with
  | zero =>
    intro start h
    obtain ⟨j, h1, h2, _⟩ := h
    omega
  | succ f ih =>
    intro start h
    by_cases hc : candName stem sfx start ∈ occupied
    · have hex : ∃ j, start + 1 ≤ j ∧ j < start + 1 + f ∧ candName stem sfx j ∉ occupied := by
        obtain ⟨j, h1, h2, h3⟩ := h
        refine ⟨j, ?_, by omega, h3⟩
        rcases Nat.eq_or_lt_of_le h1 with rfl | hlt
        · exact absurd hc h3
        · omega
      obtain ⟨ih1, ih2, ih3⟩ := ih (start + 1) hex
      rw [findFreeFrom, if_pos hc]
      refine ⟨ih1, by omega, ?_⟩
      intro j hj1 hj2
      rcases Nat.eq_or_lt_of_le hj1 with rfl | hlt
      · exact hc
      · exact ih3 j (by omega) hj2
    · rw [findFreeFrom, if_neg hc]
      exact ⟨hc, le_refl _, fun j h1 h2 => by omega⟩

/-- C9: `_get_unique_filename` returns the filename itself when it is free;
otherwise it returns `<stem>_<k><suffix>` for the smallest counter
`k ≥ 1` whose name is free; the returned name never collides with an
existing one, and a second same-named source (after the first result is
materialized) receives a different name. -/
theorem get_unique_filename_spec (occupied : List String) (filename : String) :
    get_unique_filename occupied filename ∉ occupied ∧
    (filename ∉ occupied → get_unique_filename occupied filename = filename) ∧
    (filename ∈ occupied → ∃ k, 1 ≤ k ∧
      get_unique_filename occupied filename =
        candName (pathStem filename) (pathSuffix filename) k ∧
      candName (pathStem filename) (pathSuffix filename) k ∉ occupied ∧
      (∀ j, 1 ≤ j → j < k →
        candName (pathStem filename) (pathSuffix filename) j ∈ occupied)) ∧
    get_unique_filename (occupied ++ [get_unique_filename occupied filename]) filename ≠
      get_unique_filename occupied filename := by
  have main : ∀ (occ : List String),
      get_unique_filename occ filename ∉ occ ∧
      (filename ∉ occ → get_unique_filename occ filename = filename) ∧
      (filename ∈ occ → ∃ k, 1 ≤ k ∧
        get_unique_filename occ filename =
          candName (pathStem filename) (pathSuffix filename) k ∧
        candName (pathStem filename) (pathSuffix filename) k ∉ occ ∧
        (∀ j, 1 ≤ j → j < k →
          candName (pathStem filename) (pathSuffix filename) j ∈ occ)) := by
    intro occ
    by_cases hmem : filename ∈ occ
    · obtain ⟨k₀, hk1, hk2, hk3⟩ := exists_free_candName occ (pathStem filename)
        (pathSuffix filename)
      have hex : ∃ j, 1 ≤ j ∧ j < 1 + (occ.length + 1) ∧
          candName (pathStem filename) (pathSuffix filename) j ∉ occ :=
        ⟨k₀, hk1, by omega, hk3⟩
      obtain ⟨hfree, hge, hleast⟩ := findFreeFrom_spec occ (pathStem filename)
        (pathSuffix filename) (occ.length + 1) 1 hex
      have heq : get_unique_filename occ filename =
          candName (pathStem filename) (pathSuffix filename)
            (findFreeFrom occ (pathStem filename) (pathSuffix filename) 1
              (occ.length + 1)) := by
        rw [get_unique_filename, if_pos hmem]
      refine ⟨?_, fun h => absurd hmem h, fun _ => ⟨_, hge, heq, hfree, hleast⟩⟩
      rw [heq]
      exact hfree
    · rw [get_unique_filename, if_neg hmem]
      exact ⟨hmem, fun _ => rfl, fun h => absurd h hmem⟩
  obtain ⟨h1, h2, h3⟩ := main occupied
  refine ⟨h1, h2, h3, ?_⟩
  intro hsame
  have h1' := (main (occupied ++ [get_unique_filename occupied filename])).1
  rw [hsame] at h1'
  exact h1' (List.mem_append_right _ (List.mem_singleton.mpr rfl))

theorem copyLoop_partition (base : String) (sourceExists : String → Bool)
    (copyRes : String → String → CopyOutcome) :
    ∀ (l : List SearchMatch) (copied : Nat) (skipped occ : List String),
      (copyLoop base sourceExists copyRes l (copied, skipped, occ)).1 +
        (copyLoop base sourceExists copyRes l (copied, skipped, occ)).2.1.length =
      copied + skipped.length + l.length := by
  intro l
  induction l with
  | nil => intro copied skipped occ; simp [copyLoop]
  | cons m rest ih =>
    intro copied skipped occ
    rw [copyLoop]
    by_cases hex : sourceExists (resolve_image_path base m.image_path)
    · rw [if_pos hex]
      cases hc : copyRes (resolve_image_path base m.image_path)
          (get_unique_filename occ (pathName (resolve_image_path base m.image_path))) with
      | success =>
        simp only [hc]
        rw [ih]
        simp only [List.length_cons]
        omega
      | failure msg =>
        simp only [hc]
        rw [ih]
        simp only [List.length_append, List.length_cons, List.length_nil]
        omega
    · rw [if_neg hex]
      rw [ih]
      simp only [List.length_append, List.length_cons, List.length_nil]
      omega

/-- C10: in `copy_matches_to_output` every match contributes exactly one
outcome, either incrementing the copied counter or appending one skip
string, so the copied count plus the number of skipped files equals the
number of matches. -/
theorem copy_matches_to_output_partition (output_root base : String)
    (sourceExists : String → Bool) (copyRes : String → String → CopyOutcome)
    (occupied0 : List String) (result : PersonSearchResult) :
    (copy_matches_to_output output_root base sourceExists copyRes occupied0
        result).copied_count +
      (copy_matches_to_output output_root base sourceExists copyRes occupied0
        result).skipped_files.length =
    result.matches.length := by
  have h := copyLoop_partition base sourceExists copyRes result.matches 0 [] occupied0
  simpa [copy_matches_to_output] using h

/-- Witness for C1: a concrete one-reference run whose hypotheses hold by
computation; the returned match list has pairwise-distinct identities. -/
theorem spf_dedup_best_per_identity_witness :
    List.Pairwise (fun a b => a.image_path ≠ b.image_path)
      (PersonSearchResult.matches ⟨"root".replace "_" " ",
        sortMatches [⟨"x", 0, 1, none, none, none, none⟩], 1, []⟩) := by
  have hv : validate_folder_path ["root"] (fun s => [s]) "root" = Except.ok ["root"] := rfl
  have hr : search_person_folder ["root"] (fun s => [s]) ["jpg"]
      (fun _ => [⟨"a.jpg", true, false⟩])
      (fun _ _ => RefOutcome.ok [⟨"x", 0, 1, none, none, none, none⟩])
      "root" 10 50 = Except.ok ⟨"root".replace "_" " ",
        sortMatches [⟨"x", 0, 1, none, none, none, none⟩], 1, []⟩ := by
    rw [spf_eq_of_validate_ok ["root"] (fun s => [s]) ["jpg"]
      (fun _ => [⟨"a.jpg", true, false⟩])
      (fun _ _ => RefOutcome.ok [⟨"x", 0, 1, none, none, none, none⟩])
      "root" 10 50 ["root"] hv]
    rfl
  exact (spf_dedup_best_per_identity ["root"] (fun s => [s]) ["jpg"]
    (fun _ => [⟨"a.jpg", true, false⟩])
    (fun _ _ => RefOutcome.ok [⟨"x", 0, 1, none, none, none, none⟩])
    "root" 10 50 ["root"] _ hv hr).1

/-- Witness for C2: the same concrete run is sorted by non-increasing
confidence. -/
theorem spf_sorted_desc_stable_witness :
    List.Pairwise (fun a b => b.confidence ≤ a.confidence)
      (PersonSearchResult.matches ⟨"root".replace "_" " ",
        sortMatches [⟨"x", 0, 1, none, none, none, none⟩], 1, []⟩) := by
  have hv : validate_folder_path ["root"] (fun s => [s]) "root" = Except.ok ["root"] := rfl
  have hr : search_person_folder ["root"] (fun s => [s]) ["jpg"]
      (fun _ => [⟨"a.jpg", true, false⟩])
      (fun _ _ => RefOutcome.ok [⟨"x", 0, 1, none, none, none, none⟩])
      "root" 10 50 = Except.ok ⟨"root".replace "_" " ",
        sortMatches [⟨"x", 0, 1, none, none, none, none⟩], 1, []⟩ := by
    rw [spf_eq_of_validate_ok ["root"] (fun s => [s]) ["jpg"]
      (fun _ => [⟨"a.jpg", true, false⟩])
      (fun _ _ => RefOutcome.ok [⟨"x", 0, 1, none, none, none, none⟩])
      "root" 10 50 ["root"] hv]
    rfl
  exact (spf_sorted_desc_stable ["root"] (fun s => [s]) ["jpg"]
    (fun _ => [⟨"a.jpg", true, false⟩])
    (fun _ _ => RefOutcome.ok [⟨"x", 0, 1, none, none, none, none⟩])
    "root" 10 50 ["root"] _ hv hr).1

/-- Witness for C3: a validated folder with no qualifying images yields the
sentinel result. -/
theorem spf_empty_folder_sentinel_witness :
    search_person_folder ["root"] (fun s => [s]) ["jpg"]
      (fun _ => []) (fun _ _ => RefOutcome.noFace) "root" 10 50 =
    Except.ok ⟨"root".replace "_" " ", [], 0, ["No images found"]⟩ :=
  spf_empty_folder_sentinel ["root"] (fun s => [s]) ["jpg"]
    (fun _ => []) (fun _ _ => RefOutcome.noFace) "root" 10 50 ["root"] rfl rfl

/-- Witness for C4: a run with one good, one faceless and one failing
reference produces exactly the two expected error strings. -/
theorem spf_per_reference_failures_witness :
    search_person_folder ["root"] (fun s => [s]) ["jpg"]
      (fun _ => [⟨"a.jpg", true, false⟩, ⟨"b.jpg", true, false⟩, ⟨"c.jpg", true, false⟩])
      (fun r _ =>
        if r.name = "a.jpg" then RefOutcome.ok [⟨"x", 0, 1, none, none, none, none⟩]
        else if r.name = "b.jpg" then RefOutcome.noFace
        else RefOutcome.err "boom")
      "root" 10 50 = Except.ok ⟨"root".replace "_" " ",
        sortMatches [⟨"x", 0, 1, none, none, none, none⟩], 3,
        ["No face: b.jpg", "c.jpg: boom"]⟩ ∧
    PersonSearchResult.search_errors ⟨"root".replace "_" " ",
        sortMatches [⟨"x", 0, 1, none, none, none, none⟩], 3,
        ["No face: b.jpg", "c.jpg: boom"]⟩ =
      ["No face: b.jpg", "c.jpg: boom"] := by
  have hv : validate_folder_path ["root"] (fun s => [s]) "root" = Except.ok ["root"] := rfl
  have hr : search_person_folder ["root"] (fun s => [s]) ["jpg"]
      (fun _ => [⟨"a.jpg", true, false⟩, ⟨"b.jpg", true, false⟩, ⟨"c.jpg", true, false⟩])
      (fun r _ =>
        if r.name = "a.jpg" then RefOutcome.ok [⟨"x", 0, 1, none, none, none, none⟩]
        else if r.name = "b.jpg" then RefOutcome.noFace
        else RefOutcome.err "boom")
      "root" 10 50 = Except.ok ⟨"root".replace "_" " ",
        sortMatches [⟨"x", 0, 1, none, none, none, none⟩], 3,
        ["No face: b.jpg", "c.jpg: boom"]⟩ := by
    rw [spf_eq_of_validate_ok ["root"] (fun s => [s]) ["jpg"]
      (fun _ => [⟨"a.jpg", true, false⟩, ⟨"b.jpg", true, false⟩, ⟨"c.jpg", true, false⟩])
      (fun r _ =>
        if r.name = "a.jpg" then RefOutcome.ok [⟨"x", 0, 1, none, none, none, none⟩]
        else if r.name = "b.jpg" then RefOutcome.noFace
        else RefOutcome.err "boom")
      "root" 10 50 ["root"] hv]
    rfl
  refine ⟨hr, ?_⟩
  have h := (spf_per_reference_failures ["root"] (fun s => [s]) ["jpg"]
    (fun _ => [⟨"a.jpg", true, false⟩, ⟨"b.jpg", true, false⟩, ⟨"c.jpg", true, false⟩])
    (fun r _ =>
      if r.name = "a.jpg" then RefOutcome.ok [⟨"x", 0, 1, none, none, none, none⟩]
      else if r.name = "b.jpg" then RefOutcome.noFace
      else RefOutcome.err "boom")
    "root" 10 50 ["root"] _ hv hr (by decide)).1
  exact h.trans rfl

/-- Witness for C5: the reference count of the three-reference run equals
the number of collected images even though two references fail. -/
theorem spf_reference_count_witness :
    PersonSearchResult.reference_count ⟨"root".replace "_" " ",
        sortMatches [⟨"x", 0, 1, none, none, none, none⟩], 3,
        ["No face: b.jpg", "c.jpg: boom"]⟩ = 3 := by
  have hv : validate_folder_path ["root"] (fun s => [s]) "root" = Except.ok ["root"] := rfl
  have hr : search_person_folder ["root"] (fun s => [s]) ["jpg"]
      (fun _ => [⟨"a.jpg", true, false⟩, ⟨"b.jpg", true, false⟩, ⟨"c.jpg", true, false⟩])
      (fun r _ =>
        if r.name = "a.jpg" then RefOutcome.ok [⟨"x", 0, 1, none, none, none, none⟩]
        else if r.name = "b.jpg" then RefOutcome.noFace
        else RefOutcome.err "boom")
      "root" 10 50 = Except.ok ⟨"root".replace "_" " ",
        sortMatches [⟨"x", 0, 1, none, none, none, none⟩], 3,
        ["No face: b.jpg", "c.jpg: boom"]⟩ := by
    rw [spf_eq_of_validate_ok ["root"] (fun s => [s]) ["jpg"]
      (fun _ => [⟨"a.jpg", true, false⟩, ⟨"b.jpg", true, false⟩, ⟨"c.jpg", true, false⟩])
      (fun r _ =>
        if r.name = "a.jpg" then RefOutcome.ok [⟨"x", 0, 1, none, none, none, none⟩]
        else if r.name = "b.jpg" then RefOutcome.noFace
        else RefOutcome.err "boom")
      "root" 10 50 ["root"] hv]
    rfl
  have h := spf_reference_count ["root"] (fun s => [s]) ["jpg"]
    (fun _ => [⟨"a.jpg", true, false⟩, ⟨"b.jpg", true, false⟩, ⟨"c.jpg", true, false⟩])
    (fun r _ =>
      if r.name = "a.jpg" then RefOutcome.ok [⟨"x", 0, 1, none, none, none, none⟩]
      else if r.name = "b.jpg" then RefOutcome.noFace
      else RefOutcome.err "boom")
    "root" 10 50 ["root"] _ hv hr (by decide)
  exact h.trans rfl

end FaceServiceModel
